import Mathlib

/-
Verification of the off-policy evaluation estimators in
ml/rl/training/evaluator.py (class Evaluator).

Scalars are modelled by ℚ, exact rational stand-ins for numpy float64.
numpy arrays are modelled by lists: an N-vector is a List ℚ, an N x A or
T x L matrix is a List (List ℚ) of rows, and a T x L x A tensor is a
List (List (List ℚ)).  Division is rational field division; every claim
that divides adds the nonzero hypotheses the source leaves to the caller.
The two scipy subroutines that the weighted estimator calls, the
Student-t confidence interval and the constrained quadratic minimizer,
are abstracted as function parameters of the embedding.
-/

/-- Dot product of two equal-length vectors: np.sum of an elementwise product. -/
def dotProd (a b : List ℚ) : ℚ := (List.zipWith (· * ·) a b).sum

/-- np.mean of a vector: sum divided by length. -/
def npMean (xs : List ℚ) : ℚ := xs.sum / (xs.length : ℚ)

/-- Python slice xs[:k] for an integer k, including the negative case,
where python counts from the end of the list. -/
def pyTake (k : ℤ) (xs : List ℚ) : List ℚ :=
  if 0 ≤ k then xs.take k.toNat else xs.take (xs.length - (-k).toNat)

/-- Python indexing xs[i] for an integer i, including the negative case,
where python counts from the end of the list (xs[-1] is the last entry).
Out-of-range access is mapped to 0; the source would raise IndexError. -/
def pyIdx (xs : List ℚ) (i : ℤ) : ℚ :=
  if 0 ≤ i then xs.getD i.toNat 0 else xs.getD (xs.length - (-i).toNat) 0

/-- Map over a list with access to the position index. -/
def mapWithIdx (f : ℕ → α → β) : List α → List β
  | [] => []
  | a :: t => f 0 a :: mapWithIdx (fun i x => f (i + 1) x) t

/-- Column j of a row-major matrix (entries past a row's end read as 0). -/
def colList (m : List (List ℚ)) (j : ℕ) : List ℚ := m.map (fun r => r.getD j 0)

/-- normalize_importance_weights (evaluator.py lines 448-455).  Column sums are
taken on the input; entries of a column whose sum is exactly zero are set to
1.0 and that column's divisor to the number of rows, so the column becomes
uniform 1/T; every other entry is divided by its column's sum. -/
def normalize_importance_weights (m : List (List ℚ)) : List (List ℚ) :=
  m.map (fun row => mapWithIdx (fun j w =>
    if (colList m j).sum = 0 then 1 / (m.length : ℚ) else w / (colList m j).sum) row)

/-- importance_weights_one_earlier (evaluator.py lines 343-348): np.hstack of a
uniform 1/T column with importance_weights[:, 1:], i.e. every column from
index 1 on is kept in place, only column 0 is replaced. -/
def importance_weights_one_earlier (m : List (List ℚ)) : List (List ℚ) :=
  m.map (fun row => (1 / (m.length : ℚ)) :: row.drop 1)

/-- The one-step-earlier matrix as the spec words it: a lag-1 shift, column 0
uniform 1/T and column t equal to column t-1 of the normalized weights. -/
def importance_weights_one_earlier_lagged (m : List (List ℚ)) : List (List ℚ) :=
  m.map (fun row => (1 / (m.length : ℚ)) :: row.dropLast)

/-- np.logspace(start=0, stop=L-1, num=L, base=gamma): the vector
gamma^0, gamma^1, ..., gamma^(L-1). -/
def discountVec (gamma : ℚ) (L : ℕ) : List ℚ := (List.range L).map (fun t => gamma ^ t)

/-- np.multiply(v, m) for a length-L vector v against a T x L matrix m:
v broadcasts across the rows. -/
def scaleRows (v : List ℚ) (m : List (List ℚ)) : List (List ℚ) :=
  m.map (fun row => List.zipWith (· * ·) v row)

/-- np.sum(np.multiply(x, y), axis=2) for two T x L x A tensors: the per-cell
dot product along the action axis. -/
def maskSum2 (x y : List (List (List ℚ))) : List (List ℚ) :=
  List.zipWith (List.zipWith dotProd) x y

/-- target_propensity_for_logged_action / logged_propensities (line 340):
elementwise division of two T x L matrices. -/
def raw_importance_weights (tpfa lp : List (List ℚ)) : List (List ℚ) :=
  List.zipWith (List.zipWith (fun t l => t / l)) tpfa lp

/-- importance weight of each example (lines 225-228): the target propensity
of the taken action divided by the logged propensity. -/
def importance_weight_list (target_propensities logged_actions : List (List ℚ))
    (logged_propensities : List ℚ) : List ℚ :=
  List.zipWith (fun t l => t / l)
    (List.zipWith dotProd target_propensities logged_actions) logged_propensities

/-- calculate_step_return (evaluator.py lines 457-497).  j_step is an integer
or none for float(inf); it is clamped to min(j_step, trajectory_length - 1).
The three terms are the importance-weighted discounted reward up to the
horizon, the bootstrap tail value at the horizon plus one (zero at the last
index), and the control-variate correction. -/
def calculate_step_return
    (weighted_discounts weighted_discounts_one_earlier rewards
     estimated_state_values estimated_Q_values : List (List ℚ))
    (j_step : Option ℤ) : List ℚ :=
  let trajectory_length : ℕ := (rewards.headD []).length
  let num_trajectories : ℕ := rewards.length
  let j : ℤ := match j_step with
    | none => (trajectory_length : ℤ) - 1
    | some v => min v ((trajectory_length : ℤ) - 1)
  let importance_sampled_cumulative_reward : List ℚ :=
    List.zipWith (fun w r => dotProd (pyTake (j + 1) w) (pyTake (j + 1) r))
      weighted_discounts rewards
  let direct_method_value : List ℚ :=
    if j < (trajectory_length : ℤ) - 1 then
      List.zipWith (fun w v => pyIdx w (j + 1) * pyIdx v (j + 1))
        weighted_discounts_one_earlier estimated_state_values
    else List.replicate num_trajectories 0
  let control_variate : List ℚ :=
    List.zipWith (fun p1 p2 => (List.zipWith (fun x y => x - y) p1 p2).sum)
      (List.zipWith (fun w q => List.zipWith (· * ·) (pyTake (j + 1) w) (pyTake (j + 1) q))
        weighted_discounts estimated_Q_values)
      (List.zipWith (fun w v => List.zipWith (· * ·) (pyTake (j + 1) w) (pyTake (j + 1) v))
        weighted_discounts_one_earlier estimated_state_values)
  List.zipWith (fun a b => a - b)
    (List.zipWith (· + ·) importance_sampled_cumulative_reward direct_method_value)
    control_variate

/-- Pad a list at the tail with a fill value up to length L. -/
def padTo (L : ℕ) (fill : α) (xs : List α) : List α :=
  xs ++ List.replicate (L - xs.length) fill

/-- to_equal_length (evaluator.py lines 543-547):
np.array(list(itertools.zip_longest(*x, fillvalue=fill))).swapaxes(0, 1),
which pads every trajectory to the longest length.  When x is empty,
np.array([]) is one-dimensional and swapaxes(0, 1) raises an axis error,
modelled as none. -/
def to_equal_length (x : List (List α)) (fill : α) : Option (List (List α)) :=
  match x with
  | [] => none
  | _ => some (x.map (padTo ((x.map List.length).foldr max 0) fill))

/-- np.arange ranges between consecutive episode ends (lines 523-528):
each terminal index closes the episode that starts right after the
previous terminal. -/
def rangesFromEnds : List ℕ → ℕ → List (List ℕ)
  | [], _ => []
  | e :: rest, start => (List.range' start (e + 1 - start)) :: rangesFromEnds rest (e + 1)

/-- The per-episode index ranges determined by the terminal flags:
np.nonzero(is_terminals) followed by the arange loop. -/
def episodeRanges (is_terminals : List Bool) : List (List ℕ) :=
  rangesFromEnds
    ((List.range is_terminals.length).filter (fun i => is_terminals.getD i false)) 0

/-- numpy fancy indexing rows[idxs] (out of range reads the default; the
source would raise IndexError there). -/
def gatherRows (rows : List α) (d : α) (idxs : List ℕ) : List α :=
  idxs.map (fun i => rows.getD i d)

/-- transform_to_equal_length_trajectories (evaluator.py lines 506-569).
Splits the flat stream into episodes at the true terminal flags and pads
every field to the longest episode: actions, target propensities and
Q-values with zero action-vectors, rewards with 0, logged propensities
with 1.  none models the axis error raised when there is no episode. -/
def transform_to_equal_length_trajectories
    (is_terminals : List Bool) (actions : List (List ℚ)) (rewards : List ℚ)
    (logged_propensities : List ℚ)
    (target_propensities estimated_Q_values : List (List ℚ)) :
    Option (List (List (List ℚ)) × List (List ℚ) × List (List ℚ) ×
            List (List (List ℚ)) × List (List (List ℚ))) :=
  let num_actions := (target_propensities.headD []).length
  let zeroA : List ℚ := List.replicate num_actions 0
  let trajectories := episodeRanges is_terminals
  match to_equal_length (trajectories.map (gatherRows actions zeroA)) zeroA,
        to_equal_length (trajectories.map (gatherRows rewards 0)) 0,
        to_equal_length (trajectories.map (gatherRows logged_propensities 0)) 1,
        to_equal_length (trajectories.map (gatherRows target_propensities zeroA)) zeroA,
        to_equal_length (trajectories.map (gatherRows estimated_Q_values zeroA)) zeroA with
  | some a, some r, some lp, some tp, some q => some (a, r, lp, tp, q)
  | _, _, _, _, _ => none

/-- The j-step horizon list (lines 322-328): always float(inf) (none); for
num_j_steps > 1 also -1; for num_j_steps > 2 also the evenly spaced interior
horizons i * (trajectory_length // (num_j_steps - 1)). -/
def j_steps_list (num_j_steps trajectory_length : ℕ) : List (Option ℤ) :=
  [none] ++ (if num_j_steps > 1 then [some (-1)] else [])
    ++ (if num_j_steps > 2 then
          (List.range' 1 (num_j_steps - 2)).map
            (fun i => some ((i * (trajectory_length / (num_j_steps - 1)) : ℕ) : ℤ))
        else [])

/-- j_step_bias (lines 416-420): the amount by which a j-step return falls
outside the confidence interval; where_higher is written after where_lower,
so the high side wins if both tests pass. -/
def j_step_bias (j_step_returns : List ℚ) (low_bound high_bound : ℚ) : List ℚ :=
  j_step_returns.map (fun r =>
    if r > high_bound then r - high_bound
    else if r < low_bound then low_bound - r else 0)

/-- np.cov of a J x T matrix of row variables: sample covariance with the
T - 1 denominator. -/
def npCov (m : List (List ℚ)) : List (List ℚ) :=
  let n : ℚ := ((m.headD []).length : ℚ)
  m.map (fun ri => m.map (fun rj =>
    (List.zipWith (fun x y => (x - npMean ri) * (y - npMean rj)) ri rj).sum / (n - 1)))

/-- error = covariance + j_step_bias.T * j_step_bias (line 424).  j_step_bias
is a one-dimensional array, so numpy's .T is the identity on it and * is the
elementwise product; adding that vector to the matrix broadcasts it across
the rows: error i j = cov i j + (bias j)^2. -/
def errorMatrix (cov : List (List ℚ)) (bias : List ℚ) : List (List ℚ) :=
  cov.map (fun row => List.zipWith (fun c b => c + b * b) row bias)

/-- The error matrix as the spec words it: covariance plus the outer product
of the bias vector with itself, error i j = cov i j + bias i * bias j. -/
def errorMatrixOuter (cov : List (List ℚ)) (bias : List ℚ) : List (List ℚ) :=
  List.zipWith (fun row bi => List.zipWith (fun c bj => c + bi * bj) row bias) cov bias

/-- Evaluator.num_subsets_for_cb_estimate. -/
def num_subsets_for_cb_estimate : ℕ := 25

/-- The body of weighted_doubly_robust_sequential_policy_estimation after the
reshape (evaluator.py lines 319-446), over the equal-length tensors.  ci
abstracts Evaluator.confidence_interval (scipy Student-t) and qp abstracts
the scipy.optimize.minimize call that picks the blending weights from the
error matrix; neither is reached when there is a single j-step. -/
def wdr_core (gamma : ℚ) (ci : List ℚ → ℚ × ℚ) (qp : List (List ℚ) → List ℚ)
    (actions : List (List (List ℚ))) (rewards : List (List ℚ))
    (logged_propensities : List (List ℚ))
    (target_propensities estimated_Q_values : List (List (List ℚ)))
    (num_j_steps : ℕ) : ℚ :=
  let num_trajectories : ℕ := actions.length
  let trajectory_length : ℕ := (actions.headD []).length
  let j_steps := j_steps_list num_j_steps trajectory_length
  let tpfa := maskSum2 target_propensities actions
  let qfa := maskSum2 estimated_Q_values actions
  let sv := maskSum2 target_propensities estimated_Q_values
  let iw := normalize_importance_weights (raw_importance_weights tpfa logged_propensities)
  let iwoe := importance_weights_one_earlier iw
  let discounts := discountVec gamma trajectory_length
  let wd := scaleRows discounts iw
  let wdoe := scaleRows discounts iwoe
  let jrt : List (List ℚ) :=
    j_steps.map (calculate_step_return wd wdoe rewards sv qfa)
  let j_step_returns : List ℚ := jrt.map List.sum
  let wdrVal : ℚ :=
    if j_step_returns.length = 1 then j_step_returns.headD 0
    else
      let isr : List ℚ := (List.range num_subsets_for_cb_estimate).map (fun i =>
        let lo := (⌊(i : ℚ) * ((num_trajectories : ℚ) / (num_subsets_for_cb_estimate : ℚ))⌋).toNat
        let hi := (⌊((i : ℚ) + 1) * ((num_trajectories : ℚ) / (num_subsets_for_cb_estimate : ℚ))⌋).toNat
        let subset := List.range' lo (hi - lo)
        let iw_s := normalize_importance_weights
          (raw_importance_weights (gatherRows tpfa [] subset) (gatherRows logged_propensities [] subset))
        let iwoe_s := importance_weights_one_earlier iw_s
        (calculate_step_return (scaleRows discounts iw_s) (scaleRows discounts iwoe_s)
          (gatherRows rewards [] subset) (gatherRows sv [] subset)
          (gatherRows qfa [] subset) none).sum)
      let bounds := ci isr
      let x := qp (errorMatrix (npCov jrt) (j_step_bias j_step_returns bounds.1 bounds.2))
      dotProd x j_step_returns
  let episode_values : List ℚ := rewards.map (fun row => dotProd row discounts)
  wdrVal / npMean episode_values

/-- weighted_doubly_robust_sequential_policy_estimation (lines 293-446):
reshape the flat stream into equal-length trajectories and run the MAGIC
aggregation; none models the axis error the reshape raises when the stream
holds no terminal. -/
def weighted_doubly_robust_sequential_policy_estimation (gamma : ℚ)
    (ci : List ℚ → ℚ × ℚ) (qp : List (List ℚ) → List ℚ)
    (logged_actions : List (List ℚ)) (logged_rewards : List ℚ)
    (logged_is_terminals : List Bool) (logged_propensities : List ℚ)
    (target_propensities estimated_Q_values : List (List ℚ))
    (num_j_steps : ℕ) : Option ℚ :=
  match transform_to_equal_length_trajectories logged_is_terminals logged_actions
      logged_rewards logged_propensities target_propensities estimated_Q_values with
  | none => none
  | some (actions, rewards, lp, tp, qv) =>
      some (wdr_core gamma ci qp actions rewards lp tp qv num_j_steps)

/-- doubly_robust_one_step_policy_estimation (evaluator.py lines 203-241).
Returns the triple (ips, direct method, doubly robust), each a ratio to the
summed logged reward.  estimated_values is optional; None fills the
estimates with zeros and the direct-method values with a zero column. -/
def doubly_robust_one_step_policy_estimation
    (logged_actions : List (List ℚ)) (logged_rewards : List ℚ)
    (logged_propensities : List ℚ) (target_propensities : List (List ℚ))
    (estimated_values : Option (List (List ℚ))) : ℚ × ℚ × ℚ :=
  let ev : List (List ℚ) := match estimated_values with
    | none => target_propensities.map (fun r => r.map (fun _ => (0 : ℚ)))
    | some e => e
  let direct_method_values : List ℚ := match estimated_values with
    | none => logged_actions.map (fun _ => (0 : ℚ))
    | some e => List.zipWith dotProd target_propensities e
  let total_reward : ℚ := logged_rewards.sum
  let iw := importance_weight_list target_propensities logged_actions logged_propensities
  let ips : List ℚ := List.zipWith (· * ·) iw logged_rewards
  let estimated_values_for_action : List ℚ := List.zipWith dotProd ev logged_actions
  let doubly_robust : List ℚ :=
    List.zipWith (· + ·)
      (List.zipWith (· * ·) iw
        (List.zipWith (fun r e => r - e) logged_rewards estimated_values_for_action))
      direct_method_values
  (ips.sum / total_reward, direct_method_values.sum / total_reward,
   doubly_robust.sum / total_reward)

/-- The logged-propensity substitution of Evaluator.evaluate_batch (lines
129-131): a missing logged_propensities argument is replaced with
np.ones(logged_values.shape) before the one-step estimation. -/
def evaluate_batch_logged_propensities : Option (List ℚ) → List ℚ → List ℚ
  | none, logged_values => logged_values.map (fun _ => (1 : ℚ))
  | some p, _ => p

/-- range(episode_end, last_episode_end - 1, -1): the descending integers
from ee down to lee inclusive (python stops before the stop argument). -/
def backRange (ee lee : ℤ) : List ℤ :=
  (List.range (ee + 1 - lee).toNat).map (fun k => ee - k)

/-- One episode of the backward recursion of
doubly_robust_sequential_policy_estimation (lines 276-287), returning the
pair (doubly_robust, episode_value) after the loop. -/
def episodeDR (gamma : ℚ) (dmQ iw rewards evfa : List ℚ) (ee lee : ℤ) : ℚ × ℚ :=
  (backRange ee lee).foldl
    (fun s j =>
      (pyIdx dmQ j + pyIdx iw j * (pyIdx rewards j + gamma * s.1 - pyIdx evfa j),
       s.2 * gamma + pyIdx rewards j))
    (0, 0)

/-- The doubly_robusts list accumulated over the terminal indices, threading
last_episode_end exactly as the while loop does (initially -1, then the
previous terminal index). -/
def seqDRList (gamma : ℚ) (dmQ iw rewards evfa : List ℚ) :
    List ℕ → ℤ → List ℚ
  | [], _ => []
  | e :: rest, lee =>
      ((episodeDR gamma dmQ iw rewards evfa (e : ℤ) lee).1 /
       (episodeDR gamma dmQ iw rewards evfa (e : ℤ) lee).2)
        :: seqDRList gamma dmQ iw rewards evfa rest (e : ℤ)

/-- doubly_robust_sequential_policy_estimation (evaluator.py lines 243-291),
including the loop bound range(episode_end, last_episode_end - 1, -1), which
descends to last_episode_end and, for the first episode, to python index -1,
the final row of the whole stream. -/
def doubly_robust_sequential_policy_estimation (gamma : ℚ)
    (logged_actions : List (List ℚ)) (logged_rewards : List ℚ)
    (logged_is_terminals : List Bool) (logged_propensities : List ℚ)
    (target_propensities estimated_Q_values : List (List ℚ)) : ℚ :=
  let direct_method_Q_values := List.zipWith dotProd target_propensities estimated_Q_values
  let iw := importance_weight_list target_propensities logged_actions logged_propensities
  let estimated_values_for_action := List.zipWith dotProd estimated_Q_values logged_actions
  let termIdxs := (List.range logged_actions.length).filter
    (fun i => logged_is_terminals.getD i false)
  npMean (seqDRList gamma direct_method_Q_values iw logged_rewards
    estimated_values_for_action termIdxs (-1))

/-- One call of Evaluator.report (lines 84-90) acting on the buffer lengths:
for every field, a missing input asserts that its buffer is empty and a
present input appends to it; none models the assertion failure. -/
def reportStep : List ℕ → List Bool → Option (List ℕ)
  | [], [] => some []
  | b :: bs, p :: ps =>
      if p then (reportStep bs ps).map (fun r => (b + 1) :: r)
      else if b = 0 then (reportStep bs ps).map (fun r => b :: r)
      else none
  | _, _ => none

/-- A sequence of report calls inside one accumulation window (no clear in
between), folding reportStep from the given buffer lengths. -/
def reportWindow : List (List Bool) → List ℕ → Option (List ℕ)
  | [], bufs => some bufs
  | c :: rest, bufs =>
      match reportStep bufs c with
      | none => none
      | some b2 => reportWindow rest b2

/-! Helper lemmas. -/

theorem length_mapWithIdx (f : ℕ → α → β) : ∀ l : List α, (mapWithIdx f l).length = l.length
  | [] => rfl
  | _ :: t => by simp [mapWithIdx, length_mapWithIdx _ t]

theorem getD_mapWithIdx (l : List α) (f : ℕ → α → β) (j : ℕ) (hj : j < l.length)
    (d : β) (d' : α) : (mapWithIdx f l).getD j d = f j (l.getD j d') := by
  induction l generalizing f j with
  | nil => simp at hj
  | cons a t ih =>
      cases j with
      | zero => simp [mapWithIdx]
      | succ k =>
          simp only [mapWithIdx, List.getD_cons_succ]
          exact ih (fun i x => f (i + 1) x) k (by simpa using hj)

theorem zipWith_congr_mem (f g : α → β → γ) :
    ∀ (l₁ : List α) (l₂ : List β), (∀ a ∈ l₁, ∀ b ∈ l₂, f a b = g a b) →
      List.zipWith f l₁ l₂ = List.zipWith g l₁ l₂
  | [], _, _ => by simp
  | _ :: _, [], _ => by simp
  | a :: t₁, b :: t₂, h => by
      simp only [List.zipWith_cons_cons]
      refine congrArg₂ _ (h a (by simp) b (by simp)) ?_
      exact zipWith_congr_mem f g t₁ t₂ (fun x hx y hy => h x (by simp [hx]) y (by simp [hy]))

theorem zipWith_add_replicate_zero :
    ∀ (xs : List ℚ) (n : ℕ), xs.length ≤ n →
      List.zipWith (· + ·) xs (List.replicate n (0 : ℚ)) = xs
  | [], _, _ => by simp
  | x :: t, n + 1, h => by
      simp only [List.replicate, List.zipWith_cons_cons, add_zero]
      exact congrArg _ (zipWith_add_replicate_zero t n (by simpa using h))

theorem zipWith_div_replicate_one :
    ∀ (xs : List ℚ) (n : ℕ), xs.length ≤ n →
      List.zipWith (fun t l => t / l) xs (List.replicate n (1 : ℚ)) = xs
  | [], _, _ => by simp
  | x :: t, n + 1, h => by
      simp only [List.replicate, List.zipWith_cons_cons, div_one]
      exact congrArg _ (zipWith_div_replicate_one t n (by simpa using h))

theorem dotProd_map_zero : ∀ (t a : List ℚ), dotProd (t.map (fun _ => (0 : ℚ))) a = 0
  | [], _ => rfl
  | _ :: _, [] => rfl
  | x :: t, b :: u => by
      simpa [dotProd, List.zipWith_cons_cons] using dotProd_map_zero t u

theorem sum_map_div (l : List ℚ) (s : ℚ) : (l.map (fun x => x / s)).sum = l.sum / s := by
  induction l with
  | nil => simp
  | cons a t ih => simp [ih, add_div]

theorem map_const_eq_replicate (l : List α) (c : β) :
    l.map (fun _ => c) = List.replicate l.length c := by
  induction l with
  | nil => rfl
  | cons a t ih => simp [List.replicate, ih]

/-! Claim theorems. -/

/-- C1: the total error matrix the code builds for the blending-weight
minimization is covariance plus a row-broadcast of the squared bias vector,
not covariance plus the outer product of the bias with itself: at
j_step_return_trajectories [[0,0],[1,1]] (so the covariance matrix is zero),
j_step_returns [0,2] and confidence interval [0,1], the bias is [0,1], the
code's matrix is [[0,1],[0,1]] and the outer-product matrix is [[0,0],[0,1]]. -/
theorem error_matrix_adds_squared_bias_not_outer :
    j_step_bias [0, 2] 0 1 = [0, 1] ∧
    npCov [[0, 0], [1, 1]] = [[0, 0], [0, 0]] ∧
    errorMatrix (npCov [[0, 0], [1, 1]]) (j_step_bias [0, 2] 0 1) = [[0, 1], [0, 1]] ∧
    errorMatrixOuter (npCov [[0, 0], [1, 1]]) (j_step_bias [0, 2] 0 1) = [[0, 0], [0, 1]] ∧
    errorMatrix (npCov [[0, 0], [1, 1]]) (j_step_bias [0, 2] 0 1) ≠
      errorMatrixOuter (npCov [[0, 0], [1, 1]]) (j_step_bias [0, 2] 0 1) := by
  refine ⟨by norm_num [j_step_bias], by norm_num [npCov, npMean],
    by norm_num [errorMatrix, npCov, npMean, j_step_bias],
    by norm_num [errorMatrixOuter, npCov, npMean, j_step_bias],
    by norm_num [errorMatrix, errorMatrixOuter, npCov, npMean, j_step_bias]⟩

/-- C2: the one-step-earlier importance-weight matrix built by the code keeps
every column from index 1 on in place instead of shifting by one: for the
normalized weights [[1,0],[0,1]] (obtained from [[2,0],[0,3]]), column 1 of
the code's result is column 1 of the normalized matrix, giving
[[1/2,0],[1/2,1]], while the lag-1 shift the claim describes gives
[[1/2,1],[1/2,0]]. -/
theorem one_earlier_keeps_columns_in_place :
    normalize_importance_weights [[2, 0], [0, 3]] = [[1, 0], [0, 1]] ∧
    importance_weights_one_earlier [[1, 0], [0, 1]] = [[1/2, 0], [1/2, 1]] ∧
    importance_weights_one_earlier_lagged [[1, 0], [0, 1]] = [[1/2, 1], [1/2, 0]] ∧
    importance_weights_one_earlier [[1, 0], [0, 1]] ≠
      importance_weights_one_earlier_lagged [[1, 0], [0, 1]] := by
  refine ⟨by norm_num [normalize_importance_weights, mapWithIdx, colList],
    by norm_num [importance_weights_one_earlier],
    by norm_num [importance_weights_one_earlier_lagged],
    by norm_num [importance_weights_one_earlier, importance_weights_one_earlier_lagged]⟩

/-- C3 counterexample: on a concrete stream whose is_terminals vector holds no
true entry, transform_to_equal_length_trajectories does not return
zero-episode tensors; it fails (none models the numpy axis error raised by
swapaxes on the 1-D empty array built from zero episodes). -/
theorem transform_no_terminal_returns_none_concrete :
    transform_to_equal_length_trajectories [false, false] [[1], [1]] [1, 1] [1, 1]
      [[1], [1]] [[0], [0]] = none := by
  norm_num [transform_to_equal_length_trajectories, episodeRanges, rangesFromEnds,
    to_equal_length, gatherRows, padTo, List.range_succ, List.filter]

/-- C3 amended: for every input stream whose is_terminals vector contains no
true entry, transform_to_equal_length_trajectories fails with the axis error
(none) for every field, rather than returning zero-episode tensors. -/
theorem transform_no_terminal_fails
    (is_terminals : List Bool) (actions : List (List ℚ)) (rewards : List ℚ)
    (logged_propensities : List ℚ) (target_propensities estimated_Q_values : List (List ℚ))
    (h : ∀ b ∈ is_terminals, b = false) :
    transform_to_equal_length_trajectories is_terminals actions rewards
      logged_propensities target_propensities estimated_Q_values = none := by
  have hpred : ∀ i : ℕ, is_terminals[i]?.getD false = false := by
    intro i
    by_cases hi : i < is_terminals.length
    · rw [List.getElem?_eq_getElem hi]
      simpa using h _ (List.getElem_mem hi)
    · rw [List.getElem?_eq_none (le_of_not_lt hi)]
      rfl
  have hfilter : (List.range is_terminals.length).filter
      (fun i => is_terminals.getD i false) = [] :=
    List.filter_eq_nil_iff.mpr (fun i _ => by simp [hpred i])
  simp only [transform_to_equal_length_trajectories, episodeRanges]
  rw [hfilter]
  rfl

/-- C3 witness: the amended theorem applied to a concrete terminal-free stream. -/
theorem transform_no_terminal_fails_witness :
    transform_to_equal_length_trajectories [false] [[1]] [1] [1] [[1]] [[1]] = none :=
  transform_no_terminal_fails [false] [[1]] [1] [1] [[1]] [[1]] (by decide)

/-- C9: rows after the last true terminal flag do change the result of
doubly_robust_sequential_policy_estimation.  The two streams below have their
only terminal at index 0 and agree on every field up to and including index 0
(they differ only in the reward of the trailing row 1), yet the estimates
differ, because the backward loop range(episode_end, last_episode_end - 1, -1)
descends to python index -1 and so reads the final row of the stream. -/
theorem sequential_dr_reads_final_row :
    List.take 1 ([1, 0] : List ℚ) = List.take 1 ([1, 1] : List ℚ) ∧
    doubly_robust_sequential_policy_estimation 1 [[1], [1]] [1, 0] [true, false]
      [2, 2] [[1], [1]] [[0], [0]] = 1/4 ∧
    doubly_robust_sequential_policy_estimation 1 [[1], [1]] [1, 1] [true, false]
      [2, 2] [[1], [1]] [[0], [0]] = 3/8 := by
  have hb : backRange 0 (-1) = [0, -1] := by decide
  refine ⟨by norm_num, ?_, ?_⟩
  · norm_num [doubly_robust_sequential_policy_estimation, seqDRList, episodeDR, hb,
      pyIdx, npMean, importance_weight_list, dotProd, List.range_succ, List.filter]
  · norm_num [doubly_robust_sequential_policy_estimation, seqDRList, episodeDR, hb,
      pyIdx, npMean, importance_weight_list, dotProd, List.range_succ, List.filter]

/-- C4: normalize_importance_weights is column-stochastic.  For every matrix
with rows of length L and at least one row, every column j < L of the output
sums to 1; a column whose input sum is nonzero is the input column divided by
its sum, and a column whose input sum is exactly zero becomes uniform 1/T. -/
theorem normalize_importance_weights_column_stochastic
    (m : List (List ℚ)) (L : ℕ) (hrows : ∀ r ∈ m, r.length = L) (hm : m ≠ [])
    (j : ℕ) (hj : j < L) :
    colList (normalize_importance_weights m) j =
      (if (colList m j).sum = 0 then List.replicate m.length (1 / (m.length : ℚ))
       else (colList m j).map (fun w => w / (colList m j).sum)) ∧
    (colList (normalize_importance_weights m) j).sum = 1 := by
  have hlen : (m.length : ℚ) ≠ 0 := by
    have : m.length ≠ 0 := fun hc => hm (List.length_eq_zero.mp hc)
    exact_mod_cast this
  have hcol : colList (normalize_importance_weights m) j =
      m.map (fun r =>
        if (colList m j).sum = 0 then 1 / (m.length : ℚ)
        else r.getD j 0 / (colList m j).sum) := by
    unfold colList normalize_importance_weights
    rw [List.map_map]
    refine List.map_congr_left (fun r hr => ?_)
    have hjr : j < r.length := by rw [hrows r hr]; exact hj
    exact getD_mapWithIdx r _ j hjr 0 0
  rcases eq_or_ne (colList m j).sum 0 with hz | hnz
  · have hcol0 : colList (normalize_importance_weights m) j =
        List.replicate m.length (1 / (m.length : ℚ)) := by
      rw [hcol]
      simp only [hz, if_pos]
      exact map_const_eq_replicate m _
    refine ⟨by rw [hcol0, if_pos hz], ?_⟩
    rw [hcol0, List.sum_replicate, nsmul_eq_mul]
    field_simp
  · have hcol1 : colList (normalize_importance_weights m) j =
        (colList m j).map (fun w => w / (colList m j).sum) := by
      rw [hcol]
      simp only [hnz, if_neg, if_false]
      unfold colList
      rw [List.map_map]
      rfl
    refine ⟨by rw [hcol1, if_neg hnz], ?_⟩
    rw [hcol1, sum_map_div]
    exact div_self hnz

/-- C4 witness: the theorem applied to the matrix [[1,0],[1,0]] at its all-zero
column 1, which becomes the uniform column and sums to 1. -/
theorem normalize_importance_weights_column_stochastic_witness :
    colList (normalize_importance_weights [[1, 0], [1, 0]]) 1 =
      (if (colList [[1, 0], [1, 0]] 1).sum = 0 then
        List.replicate ([[1, 0], [1, 0]] : List (List ℚ)).length
          (1 / (([[1, 0], [1, 0]] : List (List ℚ)).length : ℚ))
       else (colList [[1, 0], [1, 0]] 1).map
         (fun w => w / (colList [[1, 0], [1, 0]] 1).sum)) ∧
    (colList (normalize_importance_weights [[1, 0], [1, 0]]) 1).sum = 1 :=
  normalize_importance_weights_column_stochastic [[1, 0], [1, 0]] 2
    (by decide) (by decide) 1 (by decide)

/-- C10: when logged_propensities is absent, evaluate_batch substitutes an
all-ones vector of the shape of logged_values, and with that substitution the
importance weight of every example inside the one-step estimator is exactly
the target propensity of the taken action. -/
theorem evaluate_batch_missing_propensities_ones
    (logged_values : List ℚ) (target_propensities logged_actions : List (List ℚ))
    (h1 : target_propensities.length = logged_values.length)
    (h2 : logged_actions.length = logged_values.length) :
    evaluate_batch_logged_propensities none logged_values =
      List.replicate logged_values.length 1 ∧
    importance_weight_list target_propensities logged_actions
        (evaluate_batch_logged_propensities none logged_values) =
      List.zipWith dotProd target_propensities logged_actions := by
  constructor
  · exact map_const_eq_replicate _ _
  · show List.zipWith (fun t l => t / l)
        (List.zipWith dotProd target_propensities logged_actions)
        (logged_values.map (fun _ => (1 : ℚ))) = _
    rw [map_const_eq_replicate]
    refine zipWith_div_replicate_one _ _ ?_
    rw [List.length_zipWith, h1, h2]
    exact le_of_eq (min_self _)

/-- C10 witness: the theorem applied to a concrete single-example batch. -/
theorem evaluate_batch_missing_propensities_ones_witness :
    evaluate_batch_logged_propensities none [5] = List.replicate 1 1 ∧
    importance_weight_list [[1/2, 1/2]] [[1, 0]]
        (evaluate_batch_logged_propensities none [5]) =
      List.zipWith dotProd [[1/2, 1/2]] [[1, 0]] :=
  evaluate_batch_missing_propensities_ones [5] [[1/2, 1/2]] [[1, 0]] rfl rfl

theorem zipWith_dotProd_map_zero : ∀ (tp la : List (List ℚ)),
    List.zipWith dotProd (tp.map (fun r => r.map (fun _ => (0 : ℚ)))) la =
      List.zipWith (fun _ _ => (0 : ℚ)) tp la
  | [], _ => by simp
  | _ :: _, [] => by simp
  | t :: tp, a :: la => by
      simp only [List.map_cons, List.zipWith_cons_cons]
      exact congrArg₂ _ (dotProd_map_zero t a) (zipWith_dotProd_map_zero tp la)

theorem dr_list_none_eq_ips : ∀ (la tp : List (List ℚ)) (rw lp : List ℚ),
    rw.length = la.length → lp.length = la.length → tp.length = la.length →
    List.zipWith (· + ·)
      (List.zipWith (· * ·) (importance_weight_list tp la lp)
        (List.zipWith (fun r e => r - e) rw
          (List.zipWith dotProd (tp.map (fun row => row.map (fun _ => (0 : ℚ)))) la)))
      (la.map (fun _ => (0 : ℚ)))
    = List.zipWith (· * ·) (importance_weight_list tp la lp) rw
  | [], tp, rw, lp, _, _, _ => by simp [importance_weight_list]
  | a :: la, tp, rw, lp, hr, hp, ht => by
      match tp, rw, lp, hr, hp, ht with
      | t :: tp, r :: rw, p :: lp, hr, hp, ht =>
        simp only [importance_weight_list, List.map_cons, List.zipWith_cons_cons]
        refine congrArg₂ _ ?_ ?_
        · rw [dotProd_map_zero, sub_zero, add_zero]
        · exact dr_list_none_eq_ips la tp rw lp (by simpa using hr)
            (by simpa using hp) (by simpa using ht)

/-- C5: with estimated_values = None, the one-step estimator's direct-method
output is exactly 0 and its doubly-robust output coincides with its IPS
output.  The summed logged reward the three outputs are divided by is assumed
nonzero, the caller obligation the source documents. -/
theorem one_step_dr_without_estimates_is_ips
    (logged_actions : List (List ℚ)) (logged_rewards logged_propensities : List ℚ)
    (target_propensities : List (List ℚ))
    (hr : logged_rewards.length = logged_actions.length)
    (hp : logged_propensities.length = logged_actions.length)
    (ht : target_propensities.length = logged_actions.length)
    (_htot : logged_rewards.sum ≠ 0) :
    (doubly_robust_one_step_policy_estimation logged_actions logged_rewards
        logged_propensities target_propensities none).2.1 = 0 ∧
    (doubly_robust_one_step_policy_estimation logged_actions logged_rewards
        logged_propensities target_propensities none).2.2 =
      (doubly_robust_one_step_policy_estimation logged_actions logged_rewards
        logged_propensities target_propensities none).1 := by
  constructor
  · show (logged_actions.map (fun _ => (0 : ℚ))).sum / logged_rewards.sum = 0
    rw [map_const_eq_replicate, List.sum_replicate]
    simp
  · show (List.zipWith (· + ·)
        (List.zipWith (· * ·)
          (importance_weight_list target_propensities logged_actions logged_propensities)
          (List.zipWith (fun r e => r - e) logged_rewards
            (List.zipWith dotProd
              (target_propensities.map (fun row => row.map (fun _ => (0 : ℚ))))
              logged_actions)))
        (logged_actions.map (fun _ => (0 : ℚ)))).sum / logged_rewards.sum =
      (List.zipWith (· * ·)
        (importance_weight_list target_propensities logged_actions logged_propensities)
        logged_rewards).sum / logged_rewards.sum
    rw [dr_list_none_eq_ips logged_actions target_propensities logged_rewards
      logged_propensities hr hp ht]

/-- C5 witness: the theorem applied to a concrete single-example batch with
nonzero total reward. -/
theorem one_step_dr_without_estimates_is_ips_witness :
    (doubly_robust_one_step_policy_estimation [[1]] [2] [1] [[1/2]] none).2.1 = 0 ∧
    (doubly_robust_one_step_policy_estimation [[1]] [2] [1] [[1/2]] none).2.2 =
      (doubly_robust_one_step_policy_estimation [[1]] [2] [1] [[1/2]] none).1 :=
  one_step_dr_without_estimates_is_ips [[1]] [2] [1] [[1/2]] rfl rfl rfl
    (by norm_num)

theorem pyTake_coe (L : ℕ) (xs : List ℚ) : pyTake (L : ℤ) xs = xs.take L := by
  unfold pyTake
  rw [if_pos (Int.natCast_nonneg L), Int.toNat_natCast]

/-- C6: calculate_step_return clamps j_step to min(j_step, trajectory_length-1),
and at the clamped horizon trajectory_length - 1 (reached by every
j_step ≥ trajectory_length - 1 and by infinity) the bootstrap tail term is
exactly zero, so each trajectory's value is the importance-weighted discounted
cumulative reward over the whole trajectory minus the full control-variate
correction. -/
theorem calculate_step_return_clamps_and_drops_tail
    (wd wdoe rewards sv q : List (List ℚ)) (L : ℕ)
    (hL : (rewards.headD []).length = L)
    (hwd : ∀ r ∈ wd, r.length = L) (hrew : ∀ r ∈ rewards, r.length = L)
    (hq : ∀ r ∈ q, r.length = L)
    (hwdoe : ∀ r ∈ wdoe, r.length = L) (hsv : ∀ r ∈ sv, r.length = L)
    (v : ℤ) (hv : (L : ℤ) - 1 ≤ v) :
    calculate_step_return wd wdoe rewards sv q (some v) =
      calculate_step_return wd wdoe rewards sv q (some (min v ((L : ℤ) - 1))) ∧
    calculate_step_return wd wdoe rewards sv q (some v) =
      List.zipWith (fun a b => a - b)
        (List.zipWith (fun w r => dotProd w r) wd rewards)
        (List.zipWith (fun p1 p2 => (List.zipWith (fun x y => x - y) p1 p2).sum)
          (List.zipWith (fun w qr => List.zipWith (· * ·) w qr) wd q)
          (List.zipWith (fun w s => List.zipWith (· * ·) w s) wdoe sv)) ∧
    calculate_step_return wd wdoe rewards sv q none =
      List.zipWith (fun a b => a - b)
        (List.zipWith (fun w r => dotProd w r) wd rewards)
        (List.zipWith (fun p1 p2 => (List.zipWith (fun x y => x - y) p1 p2).sum)
          (List.zipWith (fun w qr => List.zipWith (· * ·) w qr) wd q)
          (List.zipWith (fun w s => List.zipWith (· * ·) w s) wdoe sv)) := by
  have hmin : min v ((L : ℤ) - 1) = (L : ℤ) - 1 := min_eq_right hv
  have hco : ((L : ℤ) - 1 + 1) = (L : ℤ) := by omega
  have htake : ∀ r : List ℚ, r.length = L → pyTake ((L : ℤ) - 1 + 1) r = r := by
    intro r hrl
    rw [hco, pyTake_coe, ← hrl, List.take_length]
  have hiscr : List.zipWith
      (fun w r => dotProd (pyTake ((L : ℤ) - 1 + 1) w) (pyTake ((L : ℤ) - 1 + 1) r))
      wd rewards = List.zipWith (fun w r => dotProd w r) wd rewards :=
    zipWith_congr_mem _ _ _ _
      (fun a ha b hb => by rw [htake a (hwd a ha), htake b (hrew b hb)])
  have hcv1 : List.zipWith
      (fun w qr => List.zipWith (· * ·) (pyTake ((L : ℤ) - 1 + 1) w) (pyTake ((L : ℤ) - 1 + 1) qr))
      wd q = List.zipWith (fun w qr => List.zipWith (· * ·) w qr) wd q :=
    zipWith_congr_mem _ _ _ _
      (fun a ha b hb => by rw [htake a (hwd a ha), htake b (hq b hb)])
  have hcv2 : List.zipWith
      (fun w s => List.zipWith (· * ·) (pyTake ((L : ℤ) - 1 + 1) w) (pyTake ((L : ℤ) - 1 + 1) s))
      wdoe sv = List.zipWith (fun w s => List.zipWith (· * ·) w s) wdoe sv :=
    zipWith_congr_mem _ _ _ _
      (fun a ha b hb => by rw [htake a (hwdoe a ha), htake b (hsv b hb)])
  have hlt : ¬ ((L : ℤ) - 1 < (L : ℤ) - 1) := lt_irrefl _
  have hnone : calculate_step_return wd wdoe rewards sv q none =
      List.zipWith (fun a b => a - b)
        (List.zipWith (fun w r => dotProd w r) wd rewards)
        (List.zipWith (fun p1 p2 => (List.zipWith (fun x y => x - y) p1 p2).sum)
          (List.zipWith (fun w qr => List.zipWith (· * ·) w qr) wd q)
          (List.zipWith (fun w s => List.zipWith (· * ·) w s) wdoe sv)) := by
    simp only [calculate_step_return, hL, hiscr, hcv1, hcv2, if_neg hlt]
    rw [zipWith_add_replicate_zero _ _ (by rw [List.length_zipWith]; exact min_le_right _ _)]
  have hsome : calculate_step_return wd wdoe rewards sv q (some v) =
      calculate_step_return wd wdoe rewards sv q none := by
    simp only [calculate_step_return, hL, hmin]
  have hclamp : calculate_step_return wd wdoe rewards sv q (some v) =
      calculate_step_return wd wdoe rewards sv q (some (min v ((L : ℤ) - 1))) := by
    simp only [calculate_step_return, hL, hmin, min_self]
  exact ⟨hclamp, hsome.trans hnone, hnone⟩

/-- C6 witness: the theorem applied to a concrete single-trajectory input of
length 1 with j_step = 5 ≥ trajectory_length - 1. -/
theorem calculate_step_return_clamps_and_drops_tail_witness :
    calculate_step_return [[1]] [[1]] [[2]] [[3]] [[4]] (some 5) =
      calculate_step_return [[1]] [[1]] [[2]] [[3]] [[4]] (some (min 5 ((1 : ℤ) - 1))) ∧
    calculate_step_return [[1]] [[1]] [[2]] [[3]] [[4]] (some 5) =
      List.zipWith (fun a b => a - b)
        (List.zipWith (fun w r => dotProd w r) [[1]] [[2]])
        (List.zipWith (fun p1 p2 => (List.zipWith (fun x y => x - y) p1 p2).sum)
          (List.zipWith (fun w qr => List.zipWith (· * ·) w qr) [[1]] [[4]])
          (List.zipWith (fun w s => List.zipWith (· * ·) w s) [[1]] [[3]])) ∧
    calculate_step_return [[1]] [[1]] [[2]] [[3]] [[4]] none =
      List.zipWith (fun a b => a - b)
        (List.zipWith (fun w r => dotProd w r) [[1]] [[2]])
        (List.zipWith (fun p1 p2 => (List.zipWith (fun x y => x - y) p1 p2).sum)
          (List.zipWith (fun w qr => List.zipWith (· * ·) w qr) [[1]] [[4]])
          (List.zipWith (fun w s => List.zipWith (· * ·) w s) [[1]] [[3]])) :=
  calculate_step_return_clamps_and_drops_tail [[1]] [[1]] [[2]] [[3]] [[4]] 1
    (by decide) (by decide) (by decide) (by decide) (by decide) (by decide)
    5 (by decide)

/-- C7: with num_j_steps = 1 the weighted estimator returns the
infinite-horizon step-return summed over trajectories divided by the mean
discounted episode return, for every confidence-interval function ci and
every solver qp: the subset resampling and the constrained minimization are
never invoked, so the result does not depend on them. -/
theorem wdr_single_j_step_no_solver (gamma : ℚ)
    (ci : List ℚ → ℚ × ℚ) (qp : List (List ℚ) → List ℚ)
    (logged_actions : List (List ℚ)) (logged_rewards : List ℚ)
    (logged_is_terminals : List Bool) (logged_propensities : List ℚ)
    (target_propensities estimated_Q_values : List (List ℚ))
    (a : List (List (List ℚ))) (r : List (List ℚ)) (lp2 : List (List ℚ))
    (tp2 qv2 : List (List (List ℚ)))
    (h : transform_to_equal_length_trajectories logged_is_terminals logged_actions
      logged_rewards logged_propensities target_propensities estimated_Q_values =
      some (a, r, lp2, tp2, qv2)) :
    weighted_doubly_robust_sequential_policy_estimation gamma ci qp logged_actions
      logged_rewards logged_is_terminals logged_propensities target_propensities
      estimated_Q_values 1 =
    some ((calculate_step_return
        (scaleRows (discountVec gamma (a.headD []).length)
          (normalize_importance_weights (raw_importance_weights (maskSum2 tp2 a) lp2)))
        (scaleRows (discountVec gamma (a.headD []).length)
          (importance_weights_one_earlier
            (normalize_importance_weights (raw_importance_weights (maskSum2 tp2 a) lp2))))
        r (maskSum2 tp2 qv2) (maskSum2 qv2 a) none).sum /
      npMean (r.map (fun row => dotProd row (discountVec gamma (a.headD []).length)))) := by
  unfold weighted_doubly_robust_sequential_policy_estimation
  rw [h]
  rfl

/-- C7 witness: the theorem applied to a concrete one-row stream with a single
terminal. -/
theorem wdr_single_j_step_no_solver_witness :
    weighted_doubly_robust_sequential_policy_estimation 1 (fun _ => (0, 0))
      (fun _ => []) [[1]] [1] [true] [1] [[1]] [[1]] 1 =
    some ((calculate_step_return
        (scaleRows (discountVec 1 (([[[1]]] : List (List (List ℚ))).headD []).length)
          (normalize_importance_weights
            (raw_importance_weights (maskSum2 [[[1]]] [[[1]]]) [[1]])))
        (scaleRows (discountVec 1 (([[[1]]] : List (List (List ℚ))).headD []).length)
          (importance_weights_one_earlier
            (normalize_importance_weights
              (raw_importance_weights (maskSum2 [[[1]]] [[[1]]]) [[1]]))))
        [[1]] (maskSum2 [[[1]]] [[[1]]]) (maskSum2 [[[1]]] [[[1]]]) none).sum /
      npMean (([[1]] : List (List ℚ)).map
        (fun row => dotProd row (discountVec 1 (([[[1]]] : List (List (List ℚ))).headD []).length)))) :=
  wdr_single_j_step_no_solver 1 (fun _ => (0, 0)) (fun _ => []) [[1]] [1] [true] [1]
    [[1]] [[1]] [[[1]]] [[1]] [[1]] [[[1]]] [[[1]]] rfl

theorem getD_of_length_le (l : List α) (d : α) (i : ℕ) (h : l.length ≤ i) :
    l.getD i d = d := by
  rw [List.getD_eq_getElem?_getD, List.getElem?_eq_none h]
  rfl

theorem getD_replicate_self (n i : ℕ) (x : α) : (List.replicate n x).getD i x = x := by
  rw [List.getD_eq_getElem?_getD, List.getElem?_replicate]
  split <;> rfl

theorem reportStep_some_spec : ∀ (bufs : List ℕ) (c : List Bool) (b2 : List ℕ),
    reportStep bufs c = some b2 →
    b2.length = bufs.length ∧
    (∀ i : ℕ, b2.getD i 0 = if c.getD i false then bufs.getD i 0 + 1 else bufs.getD i 0) ∧
    (∀ i : ℕ, c.getD i false = false → bufs.getD i 0 = 0)
  | [], [], b2 => by
      intro h
      simp only [reportStep, Option.some.injEq] at h
      subst h
      exact ⟨rfl, fun i => by simp, fun i _ => by simp⟩
  | [], p :: ps, b2 => by intro h; simp [reportStep] at h
  | b :: bs, [], b2 => by intro h; simp [reportStep] at h
  | b :: bs, p :: ps, b2 => by
      intro h
      cases p with
      | true =>
          simp only [reportStep, if_true] at h
          rcases Option.map_eq_some'.mp h with ⟨r, hr, hb2⟩
          subst hb2
          obtain ⟨hlen, hget, hzero⟩ := reportStep_some_spec bs ps r hr
          refine ⟨by simp [hlen], fun i => ?_, fun i hi => ?_⟩
          · cases i with
            | zero => simp
            | succ k => simpa using hget k
          · cases i with
            | zero => simp at hi
            | succ k => simpa using hzero k (by simpa using hi)
      | false =>
          by_cases hb : b = 0
          · simp only [reportStep, hb, if_pos, Bool.false_eq_true, if_false] at h
            rcases Option.map_eq_some'.mp h with ⟨r, hr, hb2⟩
            subst hb2
            obtain ⟨hlen, hget, hzero⟩ := reportStep_some_spec bs ps r hr
            refine ⟨by simp [hlen], fun i => ?_, fun i hi => ?_⟩
            · cases i with
              | zero => simp [hb]
              | succ k => simpa using hget k
            · cases i with
              | zero => simp [hb]
              | succ k => simpa using hzero k (by simpa using hi)
          · simp [reportStep, hb] at h

theorem reportStep_exists_of_empty_on_missing :
    ∀ (bufs : List ℕ) (c : List Bool), bufs.length = c.length →
    (∀ i : ℕ, c.getD i false = false → bufs.getD i 0 = 0) →
    ∃ b2, reportStep bufs c = some b2
  | [], [], _, _ => ⟨[], rfl⟩
  | [], p :: ps, h, _ => by simp at h
  | b :: bs, [], h, _ => by simp at h
  | b :: bs, p :: ps, h, hz => by
      have hz' : ∀ i : ℕ, ps.getD i false = false → bs.getD i 0 = 0 := by
        intro i hi
        simpa using hz (i + 1) (by simpa using hi)
      obtain ⟨r, hr⟩ := reportStep_exists_of_empty_on_missing bs ps (by simpa using h) hz'
      cases p with
      | true => exact ⟨(b + 1) :: r, by simp [reportStep, hr]⟩
      | false =>
          have hb : b = 0 := by simpa using hz 0 (by simp)
          exact ⟨b :: r, by simp [reportStep, hb, hr]⟩

theorem reportWindow_none_of_nonzero_missing :
    ∀ (calls : List (List Bool)) (bufs : List ℕ) (i : ℕ), bufs.getD i 0 ≠ 0 →
    (∃ b2, b2 < calls.length ∧ (calls.getD b2 []).getD i false = false) →
    reportWindow calls bufs = none
  | [], bufs, i, _, hex => by
      rcases hex with ⟨b2, hb2, _⟩
      simp at hb2
  | c :: rest, bufs, i, hnz, hex => by
      rcases hex with ⟨b2, hb2, hfalse⟩
      cases hstep : reportStep bufs c with
      | none => simp [reportWindow, hstep]
      | some nb =>
          obtain ⟨hlen, hget, hzero⟩ := reportStep_some_spec bufs c nb hstep
          cases b2 with
          | zero =>
              exact absurd (hzero i (by simpa using hfalse)) hnz
          | succ k =>
              have hnz2 : nb.getD i 0 ≠ 0 := by
                rw [hget i]
                rcases hc : c.getD i false with _ | _
                · simpa [hc] using hnz
                · simp [hc]
              simp only [reportWindow, hstep]
              exact reportWindow_none_of_nonzero_missing rest nb i hnz2
                ⟨k, by simpa using hb2, by simpa using hfalse⟩

theorem reportWindow_none_of_supplied_then_missing :
    ∀ (calls : List (List Bool)) (bufs : List ℕ) (i a b2 : ℕ), a < b2 →
    b2 < calls.length → (calls.getD a []).getD i false = true →
    (calls.getD b2 []).getD i false = false →
    reportWindow calls bufs = none
  | [], bufs, i, a, b2, _, hb2, _, _ => by simp at hb2
  | c :: rest, bufs, i, a, b2, hab, hb2, hsup, hmiss => by
      cases hstep : reportStep bufs c with
      | none => simp [reportWindow, hstep]
      | some nb =>
          obtain ⟨hlen, hget, hzero⟩ := reportStep_some_spec bufs c nb hstep
          simp only [reportWindow, hstep]
          cases a with
          | zero =>
              have hsup0 : c.getD i false = true := by simpa using hsup
              have hnz : nb.getD i 0 ≠ 0 := by
                rw [hget i, if_pos hsup0]
                exact Nat.succ_ne_zero _
              cases b2 with
              | zero => simp at hab
              | succ k =>
                  exact reportWindow_none_of_nonzero_missing rest nb i hnz
                    ⟨k, by simpa using hb2, by simpa using hmiss⟩
          | succ a' =>
              cases b2 with
              | zero => simp at hab
              | succ k =>
                  exact reportWindow_none_of_supplied_then_missing rest nb i a' k
                    (by omega) (by simpa using hb2) (by simpa using hsup)
                    (by simpa using hmiss)

theorem reportWindow_isSome_of_consistent :
    ∀ (calls : List (List Bool)) (bufs : List ℕ),
    (∀ c ∈ calls, c.length = bufs.length) →
    (∀ i : ℕ, (∀ c ∈ calls, c.getD i false = true) ∨ (∀ c ∈ calls, c.getD i false = false)) →
    (∀ i : ℕ, (∃ c ∈ calls, c.getD i false = false) → bufs.getD i 0 = 0) →
    (reportWindow calls bufs).isSome = true
  | [], bufs, _, _, _ => by simp [reportWindow]
  | c :: rest, bufs, hlen, hconst, hbuf => by
      have hz : ∀ i : ℕ, c.getD i false = false → bufs.getD i 0 = 0 :=
        fun i hi => hbuf i ⟨c, by simp, hi⟩
      obtain ⟨nb, hstep⟩ := reportStep_exists_of_empty_on_missing bufs c
        (hlen c (by simp)).symm hz
      obtain ⟨hlen2, hget, _⟩ := reportStep_some_spec bufs c nb hstep
      simp only [reportWindow, hstep]
      refine reportWindow_isSome_of_consistent rest nb ?_ ?_ ?_
      · intro c' hc'
        rw [hlen2]
        exact hlen c' (by simp [hc'])
      · intro i
        rcases hconst i with H | H
        · exact Or.inl (fun c' hc' => H c' (by simp [hc']))
        · exact Or.inr (fun c' hc' => H c' (by simp [hc']))
      · intro i hex
        rcases hex with ⟨c', hc', hfalse⟩
        rcases hconst i with H | H
        · have h1 := H c' (List.mem_cons_of_mem _ hc')
          rw [hfalse] at h1
          exact absurd h1 (by simp)
        · have hc0 : c.getD i false = false := H c (by simp)
          rw [hget i, if_neg (by rw [hc0]; exact Bool.false_ne_true)]
          exact hbuf i ⟨c', by simp [hc'], hfalse⟩

/-- C8 counterexample: a window of two report calls in which a field (index 0)
is omitted in the first call and supplied in the second is mixed in the
claim's sense, yet no assertion fires: the window completes with some state. -/
theorem report_omit_then_supply_passes :
    ((false :: List.replicate 8 true) : List Bool).getD 0 false = false ∧
    (List.replicate 9 true : List Bool).getD 0 false = true ∧
    (reportWindow [false :: List.replicate 8 true, List.replicate 9 true]
      (List.replicate 9 0)).isSome = true := by
  refine ⟨by decide, by decide, by decide⟩

/-- C8 amended: starting from the empty buffers of a window, the assertion
fires for every sequence of calls in which some field is supplied in an
earlier call and omitted in a later call; and it never fires when every
field is consistently present or consistently absent across the window's
calls.  (A field omitted before it is first supplied is not detected.) -/
theorem report_mixed_fields_assertion (n : ℕ) (calls : List (List Bool))
    (hlen : ∀ c ∈ calls, c.length = n) :
    ((∃ i, i < n ∧ ∃ a b2, a < b2 ∧ b2 < calls.length ∧
        (calls.getD a []).getD i false = true ∧
        (calls.getD b2 []).getD i false = false) →
      reportWindow calls (List.replicate n 0) = none) ∧
    ((∀ i, i < n → (∀ c ∈ calls, c.getD i false = true) ∨
        (∀ c ∈ calls, c.getD i false = false)) →
      (reportWindow calls (List.replicate n 0)).isSome = true) := by
  constructor
  · rintro ⟨i, _, a, b2, hab, hb2, hsup, hmiss⟩
    exact reportWindow_none_of_supplied_then_missing calls _ i a b2 hab hb2 hsup hmiss
  · intro hconst
    refine reportWindow_isSome_of_consistent calls _ ?_ ?_ ?_
    · intro c hc
      rw [List.length_replicate]
      exact hlen c hc
    · intro i
      by_cases hi : i < n
      · exact hconst i hi
      · refine Or.inr (fun c hc => ?_)
        refine getD_of_length_le c false i ?_
        rw [hlen c hc]
        omega
    · intro i _
      exact getD_replicate_self n i 0

/-- C8 witness: the amended theorem applied twice: a supplied-then-omitted
field (index 0) kills the window, and a consistent window (field 0 always
supplied, field 1 always omitted) completes. -/
theorem report_mixed_fields_assertion_witness :
    reportWindow [[true, true], [false, true]] (List.replicate 2 0) = none ∧
    (reportWindow [[true, false], [true, false]] (List.replicate 2 0)).isSome = true :=
  ⟨(report_mixed_fields_assertion 2 [[true, true], [false, true]] (by decide)).1
      ⟨0, by decide, 0, 1, by decide, by decide, by decide, by decide⟩,
   (report_mixed_fields_assertion 2 [[true, false], [true, false]] (by decide)).2
      (by decide)⟩
